import Mathlib

/-!
# Verification of the ContextPad desktop backend

Shallow embedding of the Rust backend (`src-tauri/src`) of ContextPad.
Each Rust command is translated into a Lean function; operating-system
effects (filesystem existence/contents, the credential vault, the window
handle) are passed in explicitly as oracles or state, so that every
definition is executable and the commands' control flow is preserved.
-/

namespace ContextPad

/-! ## Path model

`std::path::Path::file_name` / `Path::extension` semantics, used by
`detect_language_from_path` and `get_file_name` in `commands/file.rs`.
-/

/-- Split a character list on a separator character.  `splitOnChar c l`
returns the (possibly empty) chunks between occurrences of `c`. -/
def splitOnChar (sep : Char) : List Char → List (List Char)
  | [] => [[]]
  | c :: cs =>
    match splitOnChar sep cs with
    | [] => [[]]
    | cur :: rest => if c = sep then [] :: cur :: rest else (c :: cur) :: rest

/-- `Path::file_name`: the last normal component of the path; `none` for an
empty path, a root path, or a path ending in `..`.  (`.` components are
normalized away, as in Rust's `Path::components`.) -/
def rustFileName (path : String) : Option (List Char) :=
  let comps := (splitOnChar '/' path.data).filter (fun c => !c.isEmpty && c ≠ ['.'])
  match comps.getLast? with
  | none => none
  | some c => if c = ['.', '.'] then none else some c

/-- `Path::extension`: the portion of the file name after the last dot,
where a single leading dot belongs to the stem; `none` when there is no
file name or no embedded dot. -/
def rustExtension (path : String) : Option String :=
  match rustFileName path with
  | none => none
  | some f =>
    let rest := match f with
      | '.' :: tl => tl
      | other => other
    match splitOnChar '.' rest with
    | [] => none
    | [_] => none
    | ps => some ⟨ps.getLastD []⟩

/-! ## `detect_language_from_path` (commands/file.rs) -/

/-- The `match extension { ... }` table of `detect_language_from_path`,
translated arm by arm (the comparisons are case-sensitive, as in the
source). -/
def langOfExt : String → String
  | "md" | "markdown" => "markdown"
  | "txt" => "text"
  | "json" | "jsonc" => "json"
  | "yaml" | "yml" => "yaml"
  | "csv" => "csv"
  | "js" | "jsx" | "mjs" | "cjs" => "javascript"
  | "ts" | "tsx" => "typescript"
  | "py" | "pyw" => "python"
  | "rs" => "rust"
  | "html" | "htm" => "html"
  | "css" | "scss" | "sass" | "less" => "css"
  | "xml" => "xml"
  | "toml" => "toml"
  | "sh" | "bash" => "shell"
  | "c" | "h" => "c"
  | "cpp" | "cc" | "cxx" | "hpp" => "cpp"
  | "java" => "java"
  | "go" => "go"
  | "rb" => "ruby"
  | "php" => "php"
  | "swift" => "swift"
  | "kt" | "kts" => "kotlin"
  | "sql" => "sql"
  | _ => "text"

/-- `detect_language_from_path`: take the extension (empty string when
absent, mirroring `unwrap_or("")`) and look it up in the table. -/
def detect_language_from_path (path : String) : String :=
  langOfExt ((rustExtension path).getD "")

/-- The closed set of language tags of the specification's section 4.1. -/
def languageTags : List String :=
  ["markdown", "text", "json", "yaml", "csv", "javascript", "typescript",
   "python", "rust", "html", "css", "xml", "toml", "shell", "c", "cpp",
   "java", "go", "ruby", "php", "swift", "kotlin", "sql"]

/-- Every extension literal appearing in the source table. -/
def knownExts : List String :=
  ["md", "markdown", "txt", "json", "jsonc", "yaml", "yml", "csv",
   "js", "jsx", "mjs", "cjs", "ts", "tsx", "py", "pyw", "rs",
   "html", "htm", "css", "scss", "sass", "less", "xml", "toml",
   "sh", "bash", "c", "h", "cpp", "cc", "cxx", "hpp",
   "java", "go", "rb", "php", "swift", "kt", "kts", "sql"]

/-- ASCII lowercasing of a string's characters (model of Rust
`str::to_lowercase` on ASCII data). -/
def lowerStr (s : String) : List Char := s.data.map Char.toLower

set_option maxHeartbeats 1600000 in
theorem langOfExt_mem_tags (e : String) : langOfExt e ∈ languageTags := by
  unfold langOfExt
  split <;> decide

set_option maxHeartbeats 1600000 in
theorem langOfExt_default (e : String) (h : e ∉ knownExts) : langOfExt e = "text" := by
  unfold langOfExt
  split <;> simp_all [knownExts]

/-! ## `read_directory` (commands/file.rs)

The filesystem is an oracle: whether the path is a directory, and the
outcome of `fs::read_dir` — a list of per-entry results, each either a
readable entry (name, joined path, is-directory flag) or an I/O error,
exactly the shape the `for entry in read_dir` loop consumes.
-/

/-- One directory entry as produced by the embedded `FileNode` record of
`commands/file.rs` (`children` is always `none` in `read_directory`). -/
inductive FileNode where
  | mk (name : String) (path : String) (is_dir : Bool)
      (children : Option (List FileNode))

def FileNode.name : FileNode → String
  | .mk n _ _ _ => n

def FileNode.path : FileNode → String
  | .mk _ p _ _ => p

def FileNode.is_dir : FileNode → Bool
  | .mk _ _ d _ => d

def FileNode.children : FileNode → Option (List FileNode)
  | .mk _ _ _ c => c

/-- One result yielded by the `fs::read_dir` iterator. -/
inductive DirEntryResult where
  | ok (name : String) (path : String) (isDir : Bool)
  | err (e : String)
deriving DecidableEq

/-- Rust `str::starts_with('.')`. -/
def startsWithDot (s : String) : Bool :=
  match s.data with
  | [] => false
  | c :: _ => c == '.'

/-- The entry-collection loop of `read_directory`: abort on the first
unreadable entry, skip names starting with `'.'`, otherwise push a
`FileNode` with `children := none`. -/
def collectEntries : List DirEntryResult → Except String (List FileNode)
  | [] => Except.ok []
  | DirEntryResult.err e :: _ => Except.error ("Failed to read entry: " ++ e)
  | DirEntryResult.ok name path isDir :: rest =>
    if startsWithDot name then collectEntries rest
    else
      match collectEntries rest with
      | Except.error e => Except.error e
      | Except.ok ns => Except.ok (FileNode.mk name path isDir none :: ns)

/-- Lexicographic comparison of character lists (the order of Rust
`Ord::cmp` on strings, character by character). -/
def lexCmp : List Char → List Char → Ordering
  | [], [] => Ordering.eq
  | [], _ :: _ => Ordering.lt
  | _ :: _, [] => Ordering.gt
  | a :: as, b :: bs =>
    if a < b then Ordering.lt
    else if b < a then Ordering.gt
    else lexCmp as bs

/-- The `sort_by` comparator of `read_directory`: directories first, then
case-insensitive name order. -/
def entryCmp (a b : FileNode) : Ordering :=
  match a.is_dir, b.is_dir with
  | true, false => Ordering.lt
  | false, true => Ordering.gt
  | _, _ => lexCmp (lowerStr a.name) (lowerStr b.name)

/-- The non-strict order induced by the comparator. -/
def entryLE (a b : FileNode) : Prop := entryCmp a b ≠ Ordering.gt

instance decEntryLE : DecidableRel entryLE := fun a b =>
  if h : entryCmp a b = Ordering.gt then isFalse (fun hc => hc h) else isTrue h

/-- `read_directory`: fail when the path is not a directory or the
directory cannot be read; collect the entries, aborting on the first
unreadable one; sort with the comparator (Rust `sort_by` and
`insertionSort` are both stable, and the comparator is a total preorder,
so they agree). -/
def read_directory (pathIsDir : Bool)
    (readDir : Except String (List DirEntryResult)) :
    Except String (List FileNode) :=
  if !pathIsDir then Except.error "Path is not a directory"
  else
    match readDir with
    | Except.error e => Except.error ("Failed to read directory: " ++ e)
    | Except.ok rs =>
      match collectEntries rs with
      | Except.error e => Except.error e
      | Except.ok entries => Except.ok (List.insertionSort entryLE entries)

theorem lexCmp_swap (x : List Char) : ∀ y, lexCmp y x = (lexCmp x y).swap := by
  induction x with
  | nil => intro y; cases y <;> rfl
  | cons a as ih =>
    intro y
    cases y with
    | nil => rfl
    | cons b bs =>
      simp only [lexCmp]
      rcases lt_trichotomy a b with h | h | h
      · rw [if_pos h, if_neg (lt_asymm h), if_pos h]
        rfl
      · subst h
        simp only [if_neg (lt_irrefl a)]
        exact ih bs
      · rw [if_neg (lt_asymm h), if_pos h, if_neg (lt_asymm h), if_pos h]
        rfl

theorem lexCmp_trans (x : List Char) : ∀ y z, lexCmp x y ≠ Ordering.gt →
    lexCmp y z ≠ Ordering.gt → lexCmp x z ≠ Ordering.gt := by
  induction x with
  | nil => intro y z _ _; cases z <;> simp [lexCmp]
  | cons a as ih =>
    intro y z h1 h2
    cases y with
    | nil => simp [lexCmp] at h1
    | cons b bs =>
      cases z with
      | nil => simp [lexCmp] at h2
      | cons c cs =>
        simp only [lexCmp] at h1 h2 ⊢
        rcases lt_trichotomy a b with hab | hab | hab
        · rcases lt_trichotomy b c with hbc | hbc | hbc
          · simp [lt_trans hab hbc]
          · subst hbc
            simp [hab]
          · exfalso
            apply h2
            rw [if_neg (lt_asymm hbc), if_pos hbc]
        · subst hab
          rcases lt_trichotomy a c with hbc | hbc | hbc
          · simp [hbc]
          · subst hbc
            rw [if_neg (lt_irrefl a), if_neg (lt_irrefl a)] at h1 h2 ⊢
            exact ih bs cs h1 h2
          · exfalso
            apply h2
            rw [if_neg (lt_asymm hbc), if_pos hbc]
        · exfalso
          apply h1
          rw [if_neg (lt_asymm hab), if_pos hab]

theorem entryCmp_swap (a b : FileNode) : entryCmp b a = (entryCmp a b).swap := by
  unfold entryCmp
  cases ha : a.is_dir <;> cases hb : b.is_dir
  · exact lexCmp_swap (lowerStr a.name) (lowerStr b.name)
  · rfl
  · rfl
  · exact lexCmp_swap (lowerStr a.name) (lowerStr b.name)

instance : IsTotal FileNode entryLE where
  total a b := by
    by_cases h : entryCmp a b = Ordering.gt
    · right
      unfold entryLE
      rw [entryCmp_swap a b, h]
      decide
    · left
      exact h

theorem entryLE_iff (a b : FileNode) : entryLE a b ↔
    ((a.is_dir = true ∧ b.is_dir = false) ∨
      (a.is_dir = b.is_dir ∧
        lexCmp (lowerStr a.name) (lowerStr b.name) ≠ Ordering.gt)) := by
  unfold entryLE entryCmp
  cases ha : a.is_dir <;> cases hb : b.is_dir <;> simp

instance : IsTrans FileNode entryLE where
  trans a b c hab hbc := by
    rw [entryLE_iff] at hab hbc ⊢
    rcases hab with ⟨ha, hb⟩ | ⟨hab', hl1⟩
    · rcases hbc with ⟨hb', hc⟩ | ⟨hbc', hl2⟩
      · rw [hb] at hb'
        cases hb'
      · left
        refine ⟨ha, ?_⟩
        rw [← hbc']
        exact hb
    · rcases hbc with ⟨hb', hc⟩ | ⟨hbc', hl2⟩
      · left
        refine ⟨?_, hc⟩
        rw [hab']
        exact hb'
      · right
        exact ⟨hab'.trans hbc', lexCmp_trans _ _ _ hl1 hl2⟩

theorem read_directory_ok_elim {pathIsDir : Bool}
    {readDir : Except String (List DirEntryResult)} {nodes : List FileNode}
    (h : read_directory pathIsDir readDir = Except.ok nodes) :
    ∃ rs entries, pathIsDir = true ∧ readDir = Except.ok rs ∧
      collectEntries rs = Except.ok entries ∧
      nodes = List.insertionSort entryLE entries := by
  cases pathIsDir with
  | false => simp [read_directory] at h
  | true =>
    cases readDir with
    | error e => simp [read_directory] at h
    | ok rs =>
      cases hc : collectEntries rs with
      | error e => simp [read_directory, hc] at h
      | ok entries =>
        refine ⟨rs, entries, rfl, rfl, hc, ?_⟩
        simp [read_directory, hc] at h
        exact h.symm

theorem collectEntries_no_dot : ∀ rs es, collectEntries rs = Except.ok es →
    ∀ n ∈ es, startsWithDot n.name = false := by
  intro rs
  induction rs with
  | nil =>
    intro es h n hn
    simp [collectEntries] at h
    subst h
    simp at hn
  | cons r rest ih =>
    intro es h n hn
    cases r with
    | err e => simp [collectEntries] at h
    | ok name path isDir =>
      by_cases hd : startsWithDot name
      · simp only [collectEntries, if_pos hd] at h
        exact ih es h n hn
      · simp only [collectEntries, if_neg hd] at h
        cases hc : collectEntries rest with
        | error e =>
          rw [hc] at h
          simp at h
        | ok ns =>
          rw [hc] at h
          simp at h
          subst h
          rcases List.mem_cons.mp hn with hn | hn
          · subst hn
            simp only [FileNode.name]
            simp at hd
            exact hd
          · exact ih ns hc n hn

theorem collectEntries_err_mem : ∀ rs e, DirEntryResult.err e ∈ rs →
    ∃ m, collectEntries rs = Except.error m := by
  intro rs
  induction rs with
  | nil =>
    intro e he
    simp at he
  | cons r rest ih =>
    intro e he
    cases r with
    | err e0 => exact ⟨"Failed to read entry: " ++ e0, by simp [collectEntries]⟩
    | ok name path isDir =>
      rcases List.mem_cons.mp he with h | h
      · simp at h
      · obtain ⟨m, hm⟩ := ih e h
        by_cases hd : startsWithDot name
        · exact ⟨m, by simp [collectEntries, hd, hm]⟩
        · exact ⟨m, by simp [collectEntries, hd, hm]⟩

/-! ## Credential Gateway (commands/secrets.rs)

The OS keyring is an oracle: one interaction for a provider either fails
while creating the entry, fails while retrieving the password (including
"not found"), or yields the stored key.
-/

/-- Outcome of one keyring retrieval attempt for a provider. -/
inductive KeyringOutcome where
  | entryError (e : String)
  | getError (e : String)
  | found (key : String)
deriving DecidableEq

/-- `get_api_key`: surface each keyring failure as its error string. -/
def get_api_key : KeyringOutcome → Except String String
  | KeyringOutcome.entryError e =>
    Except.error ("Failed to create keyring entry: " ++ e)
  | KeyringOutcome.getError e => Except.error ("API key not found: " ++ e)
  | KeyringOutcome.found k => Except.ok k

/-- `has_api_key`: match on `get_api_key`, mapping any error to `false`. -/
def has_api_key (o : KeyringOutcome) : Except String Bool :=
  match get_api_key o with
  | Except.ok _ => Except.ok true
  | Except.error _ => Except.ok false

/-! ## `write_file` / `read_file` (commands/file.rs)

`fs::write` and `fs::read_to_string` are modelled over an explicit
filesystem state mapping paths to text contents; writability is an
oracle.  Written contents are Lean strings, hence always valid text for
the read-back.
-/

/-- Filesystem contents: path to stored text. -/
def FileSys := String → Option String

/-- `write_file`: overwrite (creating if absent) when the path is
writable, else fail with an error string. -/
def write_file (writable : String → Bool) (fs : FileSys) (p c : String) :
    Except String FileSys :=
  if writable p then Except.ok (fun q => if q = p then some c else fs q)
  else Except.error "Failed to write file: permission denied"

/-- `read_file`: return the stored content, or fail when absent. -/
def read_file (fs : FileSys) (p : String) : Except String String :=
  match fs p with
  | some c => Except.ok c
  | none => Except.error "Failed to read file: not found"

/-! ## Launch Router (main.rs)

Both the cold-start setup closure and the single-instance callback filter
the process arguments with
`args.iter().skip(1).filter(|a| !a.starts_with('-')).filter(|a| Path::new(a).exists())`.
Filesystem existence is an oracle `ex : String → Bool`.
-/

/-- Rust `str::starts_with('-')`. -/
def startsWithDash (s : String) : Bool :=
  match s.data with
  | [] => false
  | c :: _ => c == '-'

/-- The shared launch-argument filter of `main.rs` (both closures):
skip argument 0, drop flag-like arguments, keep existing paths. -/
def filter_launch_args (ex : String → Bool) (args : List String) : List String :=
  ((args.drop 1).filter (fun a => !startsWithDash a)).filter ex

/-- A one-shot delayed event emission scheduled by the cold-start path:
`thread::spawn { sleep(delayMs); emit(event, payload) }`. -/
structure ScheduledEmit where
  delayMs : Nat
  event : String
  payload : List String
deriving DecidableEq

/-- Cold start (the `.setup` closure of `main.rs`): filter the arguments;
when the result is non-empty, schedule exactly one `"open-files"` emission
after 500 ms; otherwise schedule nothing. -/
def cold_start (ex : String → Bool) (args : List String) : Option ScheduledEmit :=
  let file_paths := filter_launch_args ex args
  if file_paths.isEmpty then none
  else some ⟨500, "open-files", file_paths⟩

/-- Observable actions of the single-instance callback, in program order. -/
inductive AppAction where
  | emit (event : String) (payload : List String)
  | setFocus
  | unminimize
deriving DecidableEq

/-- Second-instance callback (the `tauri_plugin_single_instance::init`
closure of `main.rs`): filter the forwarded arguments; when non-empty,
emit `"open-files"` immediately; then, when the `"main"` window handle
exists, focus it and clear its minimized state. -/
def second_instance (ex : String → Bool) (hasMainWindow : Bool) (args : List String) :
    List AppAction :=
  let file_paths := filter_launch_args ex args
  (if file_paths.isEmpty then [] else [AppAction.emit "open-files" file_paths]) ++
  (if hasMainWindow then [AppAction.setFocus, AppAction.unminimize] else [])

end ContextPad

namespace ContextPad

/-! ## C1: `detect_language_from_path` -/

/-- C1 (counterexample): the extension is NOT mapped case-insensitively.
`"a.MD"` and `"a.md"` have extensions equal up to lowercasing, and `"md"`
is in the table with tag `"markdown"`, yet the code maps `"a.MD"` to
`"text"` while `"a.md"` maps to `"markdown"`. -/
theorem C1_counterexample_case_sensitivity :
    rustExtension "a.MD" = some "MD" ∧
    rustExtension "a.md" = some "md" ∧
    String.mk (lowerStr "MD") = "md" ∧
    "md" ∈ knownExts ∧
    detect_language_from_path "a.MD" = "text" ∧
    detect_language_from_path "a.md" = "markdown" := by
  decide

/-- C1 (amended): `detect_language_from_path` is total and always returns
a tag from the closed set of section 4.1; its result depends only on the
extension; the extension is mapped CASE-SENSITIVELY against the table, and
a missing extension, or any extension not literally in the table (hence in
particular any extension containing an uppercase letter), yields `"text"`. -/
theorem C1_detect_language_amended (p : String) :
    detect_language_from_path p ∈ languageTags ∧
    (∀ q, rustExtension p = rustExtension q →
      detect_language_from_path p = detect_language_from_path q) ∧
    (rustExtension p = none → detect_language_from_path p = "text") ∧
    (∀ e, rustExtension p = some e → e ∉ knownExts →
      detect_language_from_path p = "text") := by
  refine ⟨langOfExt_mem_tags _, ?_, ?_, ?_⟩
  · intro q h
    unfold detect_language_from_path
    rw [h]
  · intro h
    unfold detect_language_from_path
    rw [h]
    decide
  · intro e he hne
    unfold detect_language_from_path
    rw [he]
    exact langOfExt_default e hne

/-- Witness for C1: all four conjuncts applied at concrete paths. -/
theorem C1_detect_language_amended_witness :
    detect_language_from_path "a.rs" ∈ languageTags ∧
    detect_language_from_path "a.rs" = detect_language_from_path "b/c.rs" ∧
    detect_language_from_path "noext" = "text" ∧
    detect_language_from_path "a.zzz" = "text" :=
  ⟨(C1_detect_language_amended "a.rs").1,
   (C1_detect_language_amended "a.rs").2.1 "b/c.rs" (by decide),
   (C1_detect_language_amended "noext").2.2.1 (by decide),
   (C1_detect_language_amended "a.zzz").2.2.2 "zzz" (by decide) (by decide)⟩

/-! ## C2: launch-argument filtering -/

/-- C2: the launch-argument filter keeps exactly the arguments after
argument 0 that do not start with `-` and that exist on the filesystem
(oracle `ex`); the result is a sublist of the tail (order preserved),
multiplicities of kept arguments are preserved (no deduplication), and
the specification's concrete example filters as stated. -/
theorem C2_launch_argument_filtering (ex : String → Bool) (args : List String) :
    List.Sublist (filter_launch_args ex args) (args.drop 1) ∧
    (∀ a, a ∈ filter_launch_args ex args ↔
      (a ∈ args.drop 1 ∧ startsWithDash a = false ∧ ex a = true)) ∧
    (∀ a, startsWithDash a = false → ex a = true →
      (filter_launch_args ex args).count a = (args.drop 1).count a) ∧
    filter_launch_args (fun s => s == "/existing/file.txt")
      ["contextpad", "--flag", "/existing/file.txt", "/nonexistent/file.txt", "-x"] =
      ["/existing/file.txt"] := by
  refine ⟨(List.filter_sublist _).trans (List.filter_sublist _), ?_, ?_, by decide⟩
  · intro a
    unfold filter_launch_args
    simp [List.mem_filter, and_assoc]
    tauto
  · intro a h1 h2
    unfold filter_launch_args
    rw [List.count_filter h2, List.count_filter (by simp [h1])]

/-- Witness for C2: count preservation at a duplicated concrete argument. -/
theorem C2_launch_argument_filtering_witness :
    (filter_launch_args (fun s => s == "/e") ["app", "-q", "/e", "/e"]).count "/e" =
      (["app", "-q", "/e", "/e"].drop 1).count "/e" :=
  (C2_launch_argument_filtering (fun s => s == "/e") ["app", "-q", "/e", "/e"]).2.2.1
    "/e" (by decide) (by decide)

/-! ## C3: cold-start delayed emission -/

/-- C3: the cold-start path schedules a single 500 ms-delayed
`"open-files"` emission carrying the filtered paths in argument order if
and only if the filtered path set is non-empty; otherwise it schedules
nothing. -/
theorem C3_cold_start_emission (ex : String → Bool) (args : List String) :
    (filter_launch_args ex args ≠ [] →
      cold_start ex args = some ⟨500, "open-files", filter_launch_args ex args⟩) ∧
    (filter_launch_args ex args = [] → cold_start ex args = none) := by
  constructor
  · intro h
    obtain ⟨x, xs, hcons⟩ := List.exists_cons_of_ne_nil h
    simp [cold_start, hcons]
  · intro h
    simp [cold_start, h]

/-- Witness for C3: both directions at concrete inputs. -/
theorem C3_cold_start_emission_witness :
    cold_start (fun s => s == "/e") ["app", "/e"] =
      some ⟨500, "open-files", ["/e"]⟩ ∧
    cold_start (fun _ => false) ["app", "/e"] = none :=
  ⟨(C3_cold_start_emission (fun s => s == "/e") ["app", "/e"]).1 (by decide),
   (C3_cold_start_emission (fun _ => false) ["app", "/e"]).2 (by decide)⟩

/-! ## C4: second-instance routing -/

/-- C4: when at least one forwarded argument survives the filter, the
single-instance callback emits `"open-files"` with exactly those paths as
its first action (no scheduled delay), then focuses the main window and
clears its minimized state. -/
theorem C4_second_instance_routing (ex : String → Bool) (args : List String)
    (h : filter_launch_args ex args ≠ []) :
    second_instance ex true args =
      [AppAction.emit "open-files" (filter_launch_args ex args),
       AppAction.setFocus, AppAction.unminimize] := by
  obtain ⟨x, xs, hcons⟩ := List.exists_cons_of_ne_nil h
  simp [second_instance, hcons]

/-- Witness for C4: the specification's single-existing-path scenario. -/
theorem C4_second_instance_routing_witness :
    second_instance (fun s => s == "/existing/file.txt") true
      ["app", "/existing/file.txt"] =
      [AppAction.emit "open-files" ["/existing/file.txt"],
       AppAction.setFocus, AppAction.unminimize] :=
  C4_second_instance_routing (fun s => s == "/existing/file.txt")
    ["app", "/existing/file.txt"] (by decide)

/-! ## C10: unconditional focus in the second-instance callback -/

/-- C10: the single-instance callback focuses and unminimizes the main
window regardless of whether any argument survived the filter; when the
filter is empty no emit action occurs at all, and when it is non-empty
the emission precedes the focus/unminimize actions. -/
theorem C10_second_instance_focus_unconditional (ex : String → Bool) (args : List String) :
    AppAction.setFocus ∈ second_instance ex true args ∧
    AppAction.unminimize ∈ second_instance ex true args ∧
    (filter_launch_args ex args = [] →
      second_instance ex true args = [AppAction.setFocus, AppAction.unminimize]) ∧
    (filter_launch_args ex args ≠ [] →
      second_instance ex true args =
        AppAction.emit "open-files" (filter_launch_args ex args) ::
          [AppAction.setFocus, AppAction.unminimize]) := by
  refine ⟨?_, ?_, ?_, ?_⟩
  · by_cases h : (filter_launch_args ex args).isEmpty <;> simp [second_instance, h]
  · by_cases h : (filter_launch_args ex args).isEmpty <;> simp [second_instance, h]
  · intro h
    simp [second_instance, h]
  · intro h
    obtain ⟨x, xs, hcons⟩ := List.exists_cons_of_ne_nil h
    simp [second_instance, hcons]

/-- Witness for C10: both the empty-filter and non-empty-filter cases at
concrete inputs. -/
theorem C10_second_instance_focus_unconditional_witness :
    second_instance (fun _ => false) true ["app", "/e"] =
      [AppAction.setFocus, AppAction.unminimize] ∧
    second_instance (fun _ => true) true ["app", "/e"] =
      AppAction.emit "open-files" ["/e"] ::
        [AppAction.setFocus, AppAction.unminimize] :=
  ⟨(C10_second_instance_focus_unconditional (fun _ => false) ["app", "/e"]).2.2.1
    (by decide),
   (C10_second_instance_focus_unconditional (fun _ => true) ["app", "/e"]).2.2.2
    (by decide)⟩

/-! ## C5: `read_directory` output order -/

/-- C5: every successful `read_directory` result is pairwise ordered:
each directory entry precedes each file entry, and entries in the same
group are in non-decreasing case-insensitive lexicographic name order. -/
theorem C5_read_directory_sorted (pathIsDir : Bool)
    (readDir : Except String (List DirEntryResult)) (nodes : List FileNode)
    (h : read_directory pathIsDir readDir = Except.ok nodes) :
    nodes.Pairwise (fun a b =>
      (a.is_dir = true ∧ b.is_dir = false) ∨
      (a.is_dir = b.is_dir ∧
        lexCmp (lowerStr a.name) (lowerStr b.name) ≠ Ordering.gt)) := by
  obtain ⟨rs, entries, _, _, _, hnodes⟩ := read_directory_ok_elim h
  subst hnodes
  exact List.Pairwise.imp (fun hab => (entryLE_iff _ _).mp hab)
    (List.sorted_insertionSort entryLE entries)

/-- Witness for C5: a mixed listing (file, dotfile, directory) sorts to
directory-then-file. -/
theorem C5_read_directory_sorted_witness :
    List.Pairwise (fun a b =>
      (a.is_dir = true ∧ b.is_dir = false) ∨
      (a.is_dir = b.is_dir ∧
        lexCmp (lowerStr a.name) (lowerStr b.name) ≠ Ordering.gt))
      [FileNode.mk "Alpha" "/d/Alpha" true none,
       FileNode.mk "b.TXT" "/d/b.TXT" false none] :=
  C5_read_directory_sorted true
    (Except.ok [DirEntryResult.ok "b.TXT" "/d/b.TXT" false,
                DirEntryResult.ok ".hidden" "/d/.hidden" false,
                DirEntryResult.ok "Alpha" "/d/Alpha" true])
    [FileNode.mk "Alpha" "/d/Alpha" true none,
     FileNode.mk "b.TXT" "/d/b.TXT" false none] rfl

/-! ## C6: `read_directory` hides dotfiles -/

/-- C6: no `FileNode` returned by a successful `read_directory` call has a
name starting with `'.'`, whatever the raw listing contained. -/
theorem C6_read_directory_no_dotfiles (pathIsDir : Bool)
    (readDir : Except String (List DirEntryResult)) (nodes : List FileNode)
    (h : read_directory pathIsDir readDir = Except.ok nodes) :
    ∀ n ∈ nodes, startsWithDot n.name = false := by
  intro n hn
  obtain ⟨rs, entries, _, _, hc, hnodes⟩ := read_directory_ok_elim h
  subst hnodes
  exact collectEntries_no_dot rs entries hc n ((List.mem_insertionSort entryLE).mp hn)

/-- Witness for C6: a listing containing `".hidden"` yields only the
non-dot entry. -/
theorem C6_read_directory_no_dotfiles_witness :
    startsWithDot (FileNode.mk "a" "/d/a" false none).name = false :=
  C6_read_directory_no_dotfiles true
    (Except.ok [DirEntryResult.ok ".hidden" "/d/.hidden" false,
                DirEntryResult.ok "a" "/d/a" false])
    [FileNode.mk "a" "/d/a" false none] rfl
    (FileNode.mk "a" "/d/a" false none) (by simp)

/-! ## C7: `read_directory` fails fast -/

/-- C7: `read_directory` returns an error — and hence no partial listing —
whenever the path is not a directory, the directory read fails, or any
single entry of the listing is unreadable. -/
theorem C7_read_directory_fail_fast (pathIsDir : Bool)
    (readDir : Except String (List DirEntryResult)) :
    (pathIsDir = false →
      ∃ m, read_directory pathIsDir readDir = Except.error m) ∧
    (∀ e, readDir = Except.error e →
      ∃ m, read_directory pathIsDir readDir = Except.error m) ∧
    (∀ rs e, readDir = Except.ok rs → DirEntryResult.err e ∈ rs →
      ∃ m, read_directory pathIsDir readDir = Except.error m) := by
  refine ⟨?_, ?_, ?_⟩
  · intro h
    subst h
    exact ⟨"Path is not a directory", by simp [read_directory]⟩
  · intro e h
    subst h
    cases pathIsDir with
    | false => exact ⟨"Path is not a directory", by simp [read_directory]⟩
    | true => exact ⟨"Failed to read directory: " ++ e, by simp [read_directory]⟩
  · intro rs e h hmem
    subst h
    cases pathIsDir with
    | false => exact ⟨"Path is not a directory", by simp [read_directory]⟩
    | true =>
      obtain ⟨m, hm⟩ := collectEntries_err_mem rs e hmem
      exact ⟨m, by simp [read_directory, hm]⟩

/-- Witness for C7: all three failure modes at concrete inputs. -/
theorem C7_read_directory_fail_fast_witness :
    (∃ m, read_directory false (Except.ok []) = Except.error m) ∧
    (∃ m, read_directory true (Except.error "denied") = Except.error m) ∧
    (∃ m, read_directory true
      (Except.ok [DirEntryResult.ok "a" "/d/a" false,
                  DirEntryResult.err "boom"]) = Except.error m) :=
  ⟨(C7_read_directory_fail_fast false (Except.ok [])).1 rfl,
   (C7_read_directory_fail_fast true (Except.error "denied")).2.1 "denied" rfl,
   (C7_read_directory_fail_fast true
      (Except.ok [DirEntryResult.ok "a" "/d/a" false,
                  DirEntryResult.err "boom"])).2.2
      [DirEntryResult.ok "a" "/d/a" false, DirEntryResult.err "boom"]
      "boom" rfl (by simp)⟩

/-! ## C8: `has_api_key` never fails -/

/-- C8: `has_api_key` always returns `Except.ok`; it returns `true`
exactly when the underlying retrieval succeeds and `false` exactly when
retrieval fails for any reason (entry creation failure, vault error, or
"not found"); its error branch is never taken. -/
theorem C8_has_api_key_total (o : KeyringOutcome) :
    (∃ b, has_api_key o = Except.ok b) ∧
    (has_api_key o = Except.ok true ↔ ∃ k, get_api_key o = Except.ok k) ∧
    (has_api_key o = Except.ok false ↔ ∃ e, get_api_key o = Except.error e) ∧
    (∀ e, has_api_key o ≠ Except.error e) := by
  cases o <;> simp [has_api_key, get_api_key]

/-- Witness for C8: totality at a found key and at a missing key. -/
theorem C8_has_api_key_total_witness :
    (∃ b, has_api_key (KeyringOutcome.found "sk-123") = Except.ok b) ∧
    (∃ b, has_api_key (KeyringOutcome.getError "missing") = Except.ok b) :=
  ⟨(C8_has_api_key_total (KeyringOutcome.found "sk-123")).1,
   (C8_has_api_key_total (KeyringOutcome.getError "missing")).1⟩

/-! ## C9: write/read round trip -/

/-- C9: for every writable path `p` and every text content `c`, a
successful `write_file p c` followed by `read_file p` returns exactly
`c`. -/
theorem C9_write_read_round_trip (writable : String → Bool) (fs : FileSys)
    (p c : String) (h : writable p = true) :
    ∃ fs2, write_file writable fs p c = Except.ok fs2 ∧
      read_file fs2 p = Except.ok c := by
  refine ⟨fun q => if q = p then some c else fs q, ?_, ?_⟩
  · simp [write_file, h]
  · simp [read_file]

/-- Witness for C9: round trip through an initially empty filesystem. -/
theorem C9_write_read_round_trip_witness :
    ∃ fs2, write_file (fun _ => true) (fun _ => none) "/tmp/a.txt" "hello" =
        Except.ok fs2 ∧
      read_file fs2 "/tmp/a.txt" = Except.ok "hello" :=
  C9_write_read_round_trip (fun _ => true) (fun _ => none) "/tmp/a.txt" "hello" rfl

end ContextPad
